import Mathlib

/-!
# go-ghost: token generation and request construction

A shallow embedding of `ghost.go` (package `ghost`).  Go strings are byte
sequences, so a `string` is a list of byte values.  The functions of the Go
standard library and of `golang-jwt` that the source calls are either
transcribed (`strings.Split` with a one-byte separator, `hex.Decode`,
`fmt.Sprintf` on the `%s` verb, `time.Time.Add` with its `int64` seconds,
`http.Header.Add`) or, where they are cryptographic or parsing black boxes,
taken as fields of `Lib`.
-/

namespace Ghost

/-- A Go `string` / `[]byte`: a sequence of byte values.  A byte value is a
natural number; what is proved for all such sequences holds for those with
entries below 256. -/
abbrev Bytes := List Nat

/-- The UTF-8 encoding of one code point, as the Go compiler stores a
character of a string literal. -/
def utf8 (c : Char) : Bytes :=
  let n := c.toNat
  if n < 0x80 then [n]
  else if n < 0x800 then [0xC0 + n / 0x40, 0x80 + n % 0x40]
  else if n < 0x10000 then [0xE0 + n / 0x1000, 0x80 + n / 0x40 % 0x40, 0x80 + n % 0x40]
  else [0xF0 + n / 0x40000, 0x80 + n / 0x1000 % 0x40, 0x80 + n / 0x40 % 0x40, 0x80 + n % 0x40]

/-- The bytes of a string literal of the source. -/
def lit (s : String) : Bytes :=
  s.toList.flatMap utf8

/-! ## `strings.Split` -/

/-- `strings.Split(s, sep)` for a separator of one byte: the substrings of `s`
between the occurrences of `sep`, in order.  A string without `sep` gives the
one-element list `[s]` (also when `s` is empty). -/
def Split : Bytes → Nat → List Bytes
  | [], _ => [[]]
  | b :: rest, sep =>
    if b = sep then [] :: Split rest sep
    else
      match Split rest sep with
      | [] => [[b]]
      | p :: ps => (b :: p) :: ps

/-! ## `encoding/hex` -/

/-- Errors of `encoding/hex`: `InvalidByteError(b)` and `ErrLength`. -/
inductive HexError where
  | InvalidByteError (b : Nat)
  | ErrLength
  deriving DecidableEq, Repr

/-- The table `reverseHexTable` of `encoding/hex`: the value of a hexadecimal
digit, and `0xff` at every other byte. -/
def reverseHexTable (b : Nat) : Nat :=
  if 0x30 ≤ b ∧ b ≤ 0x39 then b - 0x30
  else if 0x61 ≤ b ∧ b ≤ 0x66 then b - 0x61 + 10
  else if 0x41 ≤ b ∧ b ≤ 0x46 then b - 0x41 + 10
  else 0xff

/-- `hex.DecodedLen(x)`. -/
def DecodedLen (x : Nat) : Nat := x / 2

/-- The loop of `hex.Decode(dst, src)`, with `i` the next index of `dst`: the
bytes of `src` are taken two at a time, a pair of digits is written to
`dst[i]`, and a trailing single byte is checked before the odd length is
reported.  The result is `dst` as the call leaves it, with the Go pair
`(n, error)`. -/
def decodeLoop (dst : Bytes) (i : Nat) : Bytes → Bytes × Nat × Option HexError
  | [] => (dst, i, none)
  | [p] =>
    if reverseHexTable p > 0x0f then (dst, i, some (.InvalidByteError p))
    else (dst, i, some .ErrLength)
  | p :: q :: rest =>
    let a := reverseHexTable p
    let b := reverseHexTable q
    if a > 0x0f then (dst, i, some (.InvalidByteError p))
    else if b > 0x0f then (dst, i, some (.InvalidByteError q))
    else decodeLoop (dst.set i ((a <<< 4) ||| b)) (i + 1) rest

/-- `hex.Decode(dst, src)`. -/
def Decode (dst src : Bytes) : Bytes × Nat × Option HexError :=
  decodeLoop dst 0 src

/-- `make([]byte, n)`: `n` zero bytes. -/
def make (n : Nat) : Bytes := List.replicate n 0

/-! ## `fmt.Sprintf` -/

/-- The rendering of operands left over when the format is used up:
`%!(EXTRA string=a, string=b)`. -/
def extraArgs (args : List Bytes) : Bytes :=
  lit "%!(EXTRA " ++ (lit ", ").intercalate (args.map fun a => lit "string=" ++ a) ++ lit ")"

/-- `fmt.Sprintf(format, args...)` on string operands, for the formats the
source uses: literal bytes are copied, `%s` is replaced by the next operand
verbatim (by `%!s(MISSING)` when none is left), `%%` is a percent sign, and
operands left over are reported at the end.  Other verbs do not occur in the
source (nor does a `%` at the end of the format) and are copied like literal
bytes. -/
def Sprintf : Bytes → List Bytes → Bytes
  | [], [] => []
  | [], a :: args => extraArgs (a :: args)
  | 0x25 :: 0x73 :: rest, a :: args => a ++ Sprintf rest args
  | 0x25 :: 0x73 :: rest, [] => lit "%!s(MISSING)" ++ Sprintf rest []
  | 0x25 :: 0x25 :: rest, args => 0x25 :: Sprintf rest args
  | b :: rest, args => b :: Sprintf rest args

/-! ## `time` -/

/-- The value an `int64` computation leaves: the result in two's complement. -/
def wrap64 (x : Int) : Int :=
  (x + 9223372036854775808) % 18446744073709551616 - 9223372036854775808

/-- The type `int64`. -/
abbrev int64 := { x : Int // -9223372036854775808 ≤ x ∧ x ≤ 9223372036854775807 }

/-- An integer as an `int64`. -/
def toInt64 (x : Int) : int64 :=
  ⟨wrap64 x, by unfold wrap64; omega⟩

/-- `time.Duration`: a number of nanoseconds. -/
abbrev Duration := Int

/-- `time.Second`. -/
def Second : Duration := 1000000000

/-- `time.Minute`. -/
def Minute : Duration := 60 * Second

/-- The constant `secondsPerDay`. -/
def secondsPerDay : Int := 86400

/-- The constant `unixToInternal`: the seconds from January 1 of year 1 to the
Unix epoch. -/
def unixToInternal : Int := (1969 * 365 + 1969 / 4 - 1969 / 100 + 1969 / 400) * secondsPerDay

/-- The constant `internalToUnix`. -/
def internalToUnix : Int := -unixToInternal

/-- The constant `wallToInternal`: the seconds from January 1 of year 1 to
January 1 of 1885. -/
def wallToInternal : Int := (1884 * 365 + 1884 / 4 - 1884 / 100 + 1884 / 400) * secondsPerDay

/-- A `time.Time`, by the fields packed in `wall` and `ext`: the flag
`hasMonotonic`, the 33-bit seconds since 1885 (used when the flag is set), the
nanoseconds within the second, and `ext`, the monotonic reading when the flag
is set and the seconds since January 1 of year 1 otherwise. -/
structure Time where
  hasMonotonic : Bool
  wallSec : Fin 8589934592
  nsec : Fin 1000000000
  ext : int64
  deriving DecidableEq

/-- An integer below 2^33 as the 33-bit seconds field of `wall`. -/
def toWallSec (x : Int) : Fin 8589934592 :=
  ⟨x.toNat % 8589934592, Nat.mod_lt _ (by decide)⟩

/-- An integer below 10^9 as the nanoseconds field of `wall`. -/
def toNsec (x : Int) : Fin 1000000000 :=
  ⟨x.toNat % 1000000000, Nat.mod_lt _ (by decide)⟩

/-- `unixTime(sec, nsec)`, which `time.Unix` returns: the time of the Unix
second `sec`, without monotonic reading. -/
def unixTime (sec : Int) (nsec : Fin 1000000000) : Time :=
  { hasMonotonic := false, wallSec := 0, nsec := nsec, ext := toInt64 (sec + unixToInternal) }

/-- `t.sec()`: the seconds since January 1 of year 1. -/
def Time.sec (t : Time) : Int :=
  if t.hasMonotonic then wrap64 (wallToInternal + (t.wallSec.val : Int))
  else t.ext.val

/-- `t.unixSec()`. -/
def Time.unixSec (t : Time) : Int := wrap64 (t.sec + internalToUnix)

/-- `t.Unix()`: seconds since the Unix epoch. -/
def Time.Unix (t : Time) : Int := t.unixSec

/-- `t.stripMono()`: drops the monotonic reading, keeping the seconds in
`ext`. -/
def Time.stripMono (t : Time) : Time :=
  if t.hasMonotonic then { t with hasMonotonic := false, wallSec := 0, ext := toInt64 t.sec }
  else t

/-- `t.addSec(d)`: the seconds stay in the 33-bit field when they fit; else
they move to `ext`, where a sum that overflows `int64` stops at the largest or
the smallest value. -/
def Time.addSec (t : Time) (d : Int) : Time :=
  let dsec := wrap64 ((t.wallSec.val : Int) + d)
  if t.hasMonotonic ∧ 0 ≤ dsec ∧ dsec ≤ 8589934591 then
    { t with wallSec := toWallSec dsec }
  else
    let t := t.stripMono
    let sum := wrap64 (t.ext.val + d)
    if decide (sum > t.ext.val) = decide (d > 0) then { t with ext := toInt64 sum }
    else if d > 0 then { t with ext := toInt64 9223372036854775807 }
    else { t with ext := toInt64 (-9223372036854775807) }

/-- `t.Add(d)`: the seconds of `d` are added with `addSec`, the rest of `d`
to the nanoseconds, with a carry or a borrow of one second; the monotonic
reading, when there is one, moves by `d` or is dropped when it overflows. -/
def Time.Add (t : Time) (d : Duration) : Time :=
  let dsec := Int.tdiv d 1000000000
  let nsec : Int := (t.nsec.val : Int) + Int.tmod d 1000000000
  let carried : Int × Int :=
    if nsec ≥ 1000000000 then (dsec + 1, nsec - 1000000000)
    else if nsec < 0 then (dsec - 1, nsec + 1000000000)
    else (dsec, nsec)
  let t := { t with nsec := toNsec carried.2 }
  let t := t.addSec carried.1
  if t.hasMonotonic then
    let te := wrap64 (t.ext.val + d)
    if (d < 0 ∧ te > t.ext.val) ∨ (d > 0 ∧ te < t.ext.val) then t.stripMono
    else { t with ext := toInt64 te }
  else t

/-! ## `golang-jwt` tokens -/

/-- The values the source stores in a `map[string]interface{}`: strings and
`int64` numbers. -/
inductive Value where
  | str (s : Bytes)
  | int (n : Int)
  deriving DecidableEq

/-- A `map[string]interface{}` (`jwt.MapClaims`, `Token.Header`): at most one
entry per key. -/
abbrev Map := List (Bytes × Value)

/-- The map index expression `m[k]`. -/
def Map.get (m : Map) (k : Bytes) : Option Value :=
  (m.find? fun e => e.1 = k).map Prod.snd

/-- The map assignment `m[k] = v`. -/
def Map.set (m : Map) (k : Bytes) (v : Value) : Map :=
  (k, v) :: m.filter fun e => e.1 ≠ k

/-- The hash functions of `crypto.Hash` that `golang-jwt` uses for HMAC. -/
inductive Hash where
  | SHA256
  | SHA384
  | SHA512
  deriving DecidableEq

/-- `jwt.SigningMethodHMAC`. -/
structure SigningMethodHMAC where
  Name : Bytes
  Hash : Hash
  deriving DecidableEq

/-- `jwt.SigningMethodHS256`. -/
def SigningMethodHS256 : SigningMethodHMAC := ⟨lit "HS256", .SHA256⟩

/-- `m.Alg()`. -/
def SigningMethodHMAC.Alg (m : SigningMethodHMAC) : Bytes := m.Name

/-- `jwt.Token`, before signing. -/
structure Token where
  Header : Map
  Claims : Map
  Method : SigningMethodHMAC
  deriving DecidableEq

/-- `jwt.NewWithClaims(method, claims)`. -/
def NewWithClaims (method : SigningMethodHMAC) (claims : Map) : Token :=
  { Header := [(lit "typ", .str (lit "JWT")), (lit "alg", .str method.Alg)]
    Claims := claims
    Method := method }

/-! ## The libraries behind the client

JSON encoding, URL parsing and token signing are not transcribed: the client
only passes values to them and returns what they return. -/

/-- The library functions the client calls as black boxes, over a type `Data`
of payloads and a type `E` of library errors. -/
structure Lib (Data E : Type) where
  /-- The bytes `json.NewEncoder(b).Encode(data)` writes to the buffer `b`, or
  its error. -/
  Encode : Data → Except E Bytes
  /-- The error of `url.Parse(url)`, if any. -/
  urlParse : Bytes → Option E
  /-- The result of `token.SignedString(key)`, a Go pair `(string, error)`. -/
  SignedString : Token → Bytes → Bytes × Option E

/-- The errors of `http.NewRequest`: an invalid method, or the error of
`url.Parse`. -/
inductive HttpError (E : Type) where
  | invalidMethod (method : Bytes)
  | url (e : E)
  deriving DecidableEq

/-- The errors the client returns. -/
inductive Error (E : Type) where
  /-- `fmt.Errorf("Invalid Client.Key format")`. -/
  | invalidKeyFormat
  /-- An error of `hex.Decode`, returned as it is. -/
  | hex (e : HexError)
  /-- An error of `token.SignedString`, returned as it is. -/
  | signing (e : E)
  /-- `fmt.Errorf("Request: %v", err)`, around an error of the JSON encoder. -/
  | request (e : E)
  /-- `fmt.Errorf("buildRequest: %v", err)`, around an error of
  `http.NewRequest`. -/
  | buildRequest (e : HttpError E)
  deriving DecidableEq

/-! ## `net/http` -/

/-- The token characters of RFC 7230 (`httpguts.IsTokenRune`,
`textproto.validHeaderFieldByte`): the ASCII letters and digits and fifteen
punctuation bytes. -/
def isToken (c : Nat) : Bool :=
  (0x30 ≤ c && c ≤ 0x39) || (0x41 ≤ c && c ≤ 0x5a) || (0x61 ≤ c && c ≤ 0x7a) ||
  c ∈ [0x21, 0x23, 0x24, 0x25, 0x26, 0x27, 0x2a, 0x2b, 0x2d, 0x2e, 0x5e, 0x5f, 0x60, 0x7c, 0x7e]

/-- The second loop of `textproto.canonicalMIMEHeaderKey`: upper case for the
first letter and for a letter after a dash, lower case for the others. -/
def canonicalLoop : Bool → Bytes → Bytes
  | _, [] => []
  | upper, c :: rest =>
    let c :=
      if upper && (0x61 ≤ c && c ≤ 0x7a) then c - 0x20
      else if !upper && (0x41 ≤ c && c ≤ 0x5a) then c + 0x20
      else c
    c :: canonicalLoop (c == 0x2d) rest

/-- `textproto.CanonicalMIMEHeaderKey(s)`: a key with a byte that is no token
character is returned unchanged, any other key in canonical case. -/
def CanonicalMIMEHeaderKey (s : Bytes) : Bytes :=
  if s.all isToken then canonicalLoop true s else s

/-- `http.Header`, a `map[string][]string`: at most one entry per key. -/
abbrev Header := List (Bytes × List Bytes)

/-- `h.Values(key)`: the values stored under the canonical form of `key`. -/
def Header.Values (h : Header) (key : Bytes) : List Bytes :=
  match h.find? fun e => e.1 = CanonicalMIMEHeaderKey key with
  | some e => e.2
  | none => []

/-- `h.Add(key, value)`: appends `value` to the values stored under the
canonical form of `key`. -/
def Header.Add (h : Header) (key value : Bytes) : Header :=
  let k := CanonicalMIMEHeaderKey key
  (k, Header.Values h key ++ [value]) :: h.filter fun e => e.1 ≠ k

/-- The fields of `http.Request` the client sets: the method, the URL string
given to `http.NewRequest`, the body and the headers. -/
structure Request where
  Method : Bytes
  URL : Bytes
  Body : Option Bytes
  Header : Header
  deriving DecidableEq

/-- `validMethod(method)` of `net/http`: non-empty and made of token
characters. -/
def validMethod (method : Bytes) : Bool :=
  method.length > 0 && method.all isToken

/-- `http.NewRequest(method, url, body)`: an empty method stands for `GET`; an
invalid method and a URL that does not parse are errors; the new request has
no header yet. -/
def httpNewRequest {Data E : Type} (L : Lib Data E) (method url : Bytes) (body : Option Bytes) :
    Except (HttpError E) Request :=
  let method := if method = [] then lit "GET" else method
  if !validMethod method then .error (.invalidMethod method)
  else
    match L.urlParse url with
    | some err => .error (.url err)
    | none => .ok { Method := method, URL := url, Body := body, Header := [] }

/-! ## `ghost.go` -/

/-- `http.Client`, of which the source sets the timeout. -/
structure HttpClient where
  Timeout : Duration
  deriving DecidableEq

/-- The struct `Client`. -/
structure Client where
  URL : Bytes
  Key : Bytes
  Version : Bytes
  GhostPath : Bytes
  UserAgent : Bytes
  client : HttpClient
  deriving DecidableEq

/-- The constant `defaultHTTPTimeout`. -/
def defaultHTTPTimeout : Duration := 10 * Second

/-- `NewClient(url, key)`. -/
def NewClient (url key : Bytes) : Client :=
  let httpClient : HttpClient := { Timeout := defaultHTTPTimeout }
  { URL := url
    Key := key
    Version := lit "v3.0"
    GhostPath := lit "ghost"
    UserAgent := []
    client := httpClient }

/-- The token `generateJWT` builds before signing, from the first part of the
key and the clock reading (lines 58 to 64). -/
def jwtToken (kid : Bytes) (now : Time) : Token :=
  let token := NewWithClaims SigningMethodHS256
    [ (lit "aud", .str (lit "/admin/")),
      (lit "exp", .int (now.Add (5 * Minute)).Unix),
      (lit "iat", .int now.Unix) ]
  { token with Header := token.Header.set (lit "kid") (.str kid) }

/-- A pair `(string, error)` of `token.SignedString` as a pair of the client:
the string and the error are returned as they are. -/
def returned {E : Type} : Bytes × Option E → Bytes × Option (Error E)
  | (s, none) => (s, none)
  | (s, some err) => (s, some (.signing err))

/-- `c.generateJWT()`, with `now` the reading of `time.Now()`: the Go pair
`(string, error)`. -/
def generateJWT {Data E : Type} (L : Lib Data E) (c : Client) (now : Time) :
    Bytes × Option (Error E) :=
  let keyParts := Split c.Key 0x3a
  if keyParts.length ≠ 2 then ([], some .invalidKeyFormat)
  else
    let secret := make (DecodedLen (keyParts.getD 1 []).length)
    match Decode secret (keyParts.getD 1 []) with
    | (_, _, some err) => ([], some (.hex err))
    | (secret, _, none) =>
      returned (L.SignedString (jwtToken (keyParts.getD 0 []) now) secret)

/-- The body of the request (lines 72 to 79): none for a `nil` payload, else
the bytes the JSON encoder writes to the buffer, or the encoder's error. -/
def encodeBody {Data E : Type} (L : Lib Data E) (data : Option Data) : Except E (Option Bytes) :=
  match data with
  | none => .ok none
  | some d =>
    match L.Encode d with
    | .error err => .error err
    | .ok b => .ok (some b)

/-- `c.NewRequest(method, path, data)`, with `now` the reading of `time.Now()`
in `generateJWT`: the Go pair `(*http.Request, error)`, `none` for `nil`. -/
def NewRequest {Data E : Type} (L : Lib Data E) (c : Client) (now : Time)
    (method path : Bytes) (data : Option Data) : Option Request × Option (Error E) :=
  let url := Sprintf (lit "%s%s") [c.URL, path]
  match encodeBody L data with
  | .error err => (none, some (.request err))
  | .ok body =>
    match httpNewRequest L method url body with
    | .error err => (none, some (.buildRequest err))
    | .ok r =>
      let ua := if c.UserAgent = [] then lit "go-ghost v1" else c.UserAgent
      let r := { r with Header := r.Header.Add (lit "User-Agent") ua }
      let r := { r with Header := r.Header.Add (lit "Content-Type") (lit "application/json") }
      let r := { r with Header := r.Header.Add (lit "Accept-Version") c.Version }
      if c.Key ≠ [] then
        match generateJWT L c now with
        | (_, some err) => (none, some err)
        | (token, none) =>
          (some { r with Header := r.Header.Add (lit "Authorization") (lit "Ghost " ++ token) }, none)
      else (some r, none)

/-- `c.Endpoint(api, resource)`. -/
def Endpoint (c : Client) (api resource : Bytes) : Bytes :=
  Sprintf (lit "/%s/api/%s/%s/") [c.GhostPath, api, resource]

/-- `c.EndpointForID(api, resource, id)`. -/
def EndpointForID (c : Client) (api resource id : Bytes) : Bytes :=
  Endpoint c api resource ++ Sprintf (lit "%s/") [id]

/-- `c.EndpointForSlug(api, resource, slug)`. -/
def EndpointForSlug (c : Client) (api resource slug : Bytes) : Bytes :=
  Endpoint c api resource ++ Sprintf (lit "slug/%s/") [slug]

/-! ## A stand-in library

Used to evaluate the client on concrete inputs. -/

/-- A stand-in for the libraries: payloads are their own encoding followed by
a newline, a URL with a space does not parse, and signing returns the key
identifier, a dot and the key as the token string, without error. -/
def stubLib : Lib Bytes Unit where
  Encode := fun d => .ok (d ++ [0x0a])
  urlParse := fun u => if 0x20 ∈ u then some () else none
  SignedString := fun t key =>
    match t.Header.get (lit "kid") with
    | some (.str kid) => (kid ++ 0x2e :: key, none)
    | _ => ([], some ())

/-- The request `NewRequest` builds with the stand-in library for a client of
`NewClient` at `http://h`, the method `POST`, the path
`/ghost/api/admin/posts/` and the payload `null`, given the entries of the
`Authorization` header. -/
def stubRequest (authorization : Header) : Request :=
  { Method := lit "POST"
    URL := lit "http://h/ghost/api/admin/posts/"
    Body := some (lit "null" ++ [0x0a])
    Header := authorization ++
      [(lit "Accept-Version", [lit "v3.0"]), (lit "Content-Type", [lit "application/json"]),
        (lit "User-Agent", [lit "go-ghost v1"])] }

/-! ## Specification-level notions -/

/-- A hexadecimal digit, in either case. -/
def isHexDigit (b : Nat) : Prop :=
  (0x30 ≤ b ∧ b ≤ 0x39) ∨ (0x61 ≤ b ∧ b ≤ 0x66) ∨ (0x41 ≤ b ∧ b ≤ 0x46)

instance : DecidablePred isHexDigit := fun b => by
  unfold isHexDigit
  exact inferInstance

/-- A string of hexadecimal digits of even length. -/
def ValidHex (s : Bytes) : Prop :=
  s.length % 2 = 0 ∧ ∀ b ∈ s, isHexDigit b

instance : DecidablePred ValidHex := fun s => by
  unfold ValidHex
  exact inferInstance

/-- The digits of base 16 in the order of their values (the table `hextable`
of `encoding/hex`). -/
def hextable : Bytes := lit "0123456789abcdef"

/-- The digits of base 16 with capital letters. -/
def hextableUpper : Bytes := lit "0123456789ABCDEF"

/-- The value of a hexadecimal digit: its place among the sixteen digits. -/
def hexValue (b : Nat) : Nat :=
  if b ∈ hextable then hextable.indexOf b else hextableUpper.indexOf b

/-- The bytes a string of hexadecimal digits stands for: one byte for every
two digits, the first digit counting sixteen times its value. -/
def hexBytes : Bytes → Bytes
  | p :: q :: rest => (16 * hexValue p + hexValue q) :: hexBytes rest
  | _ => []

/-- The hexadecimal writing of a byte string (`hex.EncodeToString`): for every
byte the digit of its high four bits and the digit of its low four bits. -/
def hexEncode (k : Bytes) : Bytes :=
  k.flatMap fun v => [hextable.getD (v / 16) 0, hextable.getD (v % 16) 0]

/-- A key `id:secret`: `id` and `secret` are free of `:`. -/
def SplitsAs (key id secret : Bytes) : Prop :=
  key = id ++ 0x3a :: secret ∧ 0x3a ∉ id ∧ 0x3a ∉ secret

instance (key id secret : Bytes) : Decidable (SplitsAs key id secret) := by
  unfold SplitsAs
  exact inferInstance

/-- A key that consists of exactly one `:` between two non-empty parts. -/
def TwoNonEmptyParts (key : Bytes) : Prop :=
  ∃ id secret, SplitsAs key id secret ∧ id ≠ [] ∧ secret ≠ []

/-- The user agent of a request: that of the client, or the default when the
client has none. -/
def userAgentOf (c : Client) : Bytes :=
  if c.UserAgent = [] then lit "go-ghost v1" else c.UserAgent

/-! ## Lemmas on `Split` -/

theorem Split_ne_nil (s : Bytes) (sep : Nat) : Split s sep ≠ [] := by
  cases s with
  | nil => simp [Split]
  | cons b rest =>
    unfold Split
    split
    · simp
    · split <;> simp

theorem Split_of_not_mem {s : Bytes} {sep : Nat} (h : sep ∉ s) : Split s sep = [s] := by
  induction s with
  | nil => rfl
  | cons b rest ih =>
    have hb : b ≠ sep := fun e => h (by simp [e])
    have hr : sep ∉ rest := fun e => h (by simp [e])
    simp [Split, hb, ih hr]

theorem Split_append_cons {a : Bytes} (b : Bytes) {sep : Nat} (h : sep ∉ a) :
    Split (a ++ sep :: b) sep = a :: Split b sep := by
  induction a with
  | nil => simp [Split]
  | cons x rest ih =>
    have hx : x ≠ sep := fun e => h (by simp [e])
    have hr : sep ∉ rest := fun e => h (by simp [e])
    simp [Split, hx, ih hr]

theorem Split_cases (s : Bytes) (sep : Nat) :
    (sep ∉ s ∧ Split s sep = [s]) ∨
      ∃ a b, s = a ++ sep :: b ∧ sep ∉ a ∧ Split s sep = a :: Split b sep := by
  by_cases h : sep ∈ s
  · right
    obtain ⟨a, b, hs, ha⟩ := List.eq_append_cons_of_mem h
    exact ⟨a, b, hs, ha, by rw [hs]; exact Split_append_cons b ha⟩
  · exact Or.inl ⟨h, Split_of_not_mem h⟩

theorem Split_length (s : Bytes) (sep : Nat) : (Split s sep).length = s.count sep + 1 := by
  induction s with
  | nil => rfl
  | cons b rest ih =>
    unfold Split
    by_cases hb : b = sep
    · subst hb
      simp [ih]
    · have hne : (b == sep) = false := by simpa using hb
      rw [if_neg hb, List.count_cons, hne]
      cases hsp : Split rest sep with
      | nil => exact absurd hsp (Split_ne_nil _ _)
      | cons p ps =>
        rw [hsp] at ih
        simpa using ih

theorem Split_eq_pair {s a b : Bytes} {sep : Nat} (h : Split s sep = [a, b]) :
    s = a ++ sep :: b ∧ sep ∉ a ∧ sep ∉ b := by
  rcases Split_cases s sep with ⟨_, h1⟩ | ⟨x, y, hs, hx, h1⟩
  · rw [h1] at h
    simp at h
  · rw [h1] at h
    have hxa : x = a := by simpa using congrArg List.head? h
    have hy : Split y sep = [b] := by simpa using congrArg List.tail h
    rcases Split_cases y sep with ⟨hy0, h2⟩ | ⟨u, v, _, _, h2⟩
    · rw [h2] at hy
      have hyb : y = b := by simpa using hy
      subst hxa hyb
      exact ⟨hs, hx, hy0⟩
    · rw [h2] at hy
      have : Split v sep = [] := by simpa using congrArg List.tail hy
      exact absurd this (Split_ne_nil _ _)

theorem Split_pair_iff {s a b : Bytes} {sep : Nat} :
    Split s sep = [a, b] ↔ s = a ++ sep :: b ∧ sep ∉ a ∧ sep ∉ b := by
  constructor
  · exact Split_eq_pair
  · rintro ⟨hs, ha, hb⟩
    rw [hs, Split_append_cons b ha, Split_of_not_mem hb]

/-! ## Lemmas on `hex.Decode` -/

theorem reverseHexTable_gt_iff (b : Nat) : reverseHexTable b > 0x0f ↔ ¬ isHexDigit b := by
  unfold reverseHexTable isHexDigit
  split_ifs <;> omega

theorem reverseHexTable_le {b : Nat} (h : isHexDigit b) : reverseHexTable b ≤ 15 := by
  by_contra hc
  exact (reverseHexTable_gt_iff b).mp (by omega) h

theorem reverseHexTable_eq_hexValue {b : Nat} (h : isHexDigit b) :
    reverseHexTable b = hexValue b := by
  have hall : ∀ x < 103, isHexDigit x → reverseHexTable x = hexValue x := by decide
  have hb : b < 103 := by
    unfold isHexDigit at h
    omega
  exact hall b hb h

theorem shift_or_eq : ∀ a < 16, ∀ b < 16, (a <<< 4) ||| b = 16 * a + b := by
  decide

theorem two_step {P : Bytes → Prop} (h0 : P []) (h1 : ∀ p, P [p])
    (h2 : ∀ p q rest, P rest → P (p :: q :: rest)) : ∀ s, P s
  | [] => h0
  | [p] => h1 p
  | p :: q :: rest => h2 p q rest (two_step h0 h1 h2 rest)

theorem hexBytes_length (s : Bytes) : (hexBytes s).length = s.length / 2 := by
  induction s using two_step with
  | h0 => rfl
  | h1 p => simp [hexBytes]
  | h2 p q rest ih =>
    simp only [hexBytes, List.length_cons, ih]
    omega

theorem ValidHex_cons_cons {p q : Nat} {rest : Bytes} :
    ValidHex (p :: q :: rest) ↔ isHexDigit p ∧ isHexDigit q ∧ ValidHex rest := by
  unfold ValidHex
  simp only [List.length_cons, List.mem_cons, forall_eq_or_imp]
  constructor
  · rintro ⟨hl, hp, hq, hr⟩
    exact ⟨hp, hq, by omega, hr⟩
  · rintro ⟨hp, hq, hl, hr⟩
    exact ⟨by omega, hp, hq, hr⟩

theorem decodeLoop_valid {src : Bytes} (h : ValidHex src) (dst : Bytes) (i : Nat)
    (hroom : i + src.length / 2 ≤ dst.length) :
    decodeLoop dst i src =
      (dst.take i ++ hexBytes src ++ dst.drop (i + src.length / 2), i + src.length / 2, none) := by
  induction src using two_step generalizing dst i with
  | h0 => simp [decodeLoop, hexBytes]
  | h1 p => simp [ValidHex] at h
  | h2 p q rest ih =>
    obtain ⟨hp, hq, hr⟩ := ValidHex_cons_cons.mp h
    have hp1 : ¬ reverseHexTable p > 0x0f := by rw [reverseHexTable_gt_iff]; exact not_not.mpr hp
    have hq1 : ¬ reverseHexTable q > 0x0f := by rw [reverseHexTable_gt_iff]; exact not_not.mpr hq
    have hlen : (p :: q :: rest).length / 2 = rest.length / 2 + 1 := by
      simp only [List.length_cons]; omega
    rw [hlen] at hroom
    have hi : i < dst.length := by omega
    unfold decodeLoop
    simp only [hp1, hq1, if_false]
    rw [ih hr _ _ (by simp; omega), hlen,
      shift_or_eq _ (by have := reverseHexTable_le hp; omega) _
        (by have := reverseHexTable_le hq; omega)]
    simp only [hexBytes, Prod.mk.injEq, and_true]
    refine ⟨?_, by omega⟩
    have ht : List.take (i + 1) (dst.set i (16 * reverseHexTable p + reverseHexTable q)) =
        List.take i dst ++ [16 * reverseHexTable p + reverseHexTable q] := by
      have hA : (List.take i dst).length = i := by
        rw [List.length_take]; omega
      rw [List.set_eq_take_append_cons_drop, if_pos hi, List.take_append_eq_append_take, hA,
        List.take_of_length_le (by omega)]
      simp
    have hd : List.drop (i + 1 + rest.length / 2)
        (dst.set i (16 * reverseHexTable p + reverseHexTable q)) =
        List.drop (i + (rest.length / 2 + 1)) dst := by
      rw [List.drop_set_of_lt _ _ (by omega)]
      congr 1
      omega
    rw [ht, hd, reverseHexTable_eq_hexValue hp, reverseHexTable_eq_hexValue hq]
    simp

theorem decodeLoop_invalid {src : Bytes} (h : ¬ ValidHex src) (dst : Bytes) (i : Nat) :
    ∃ e, (decodeLoop dst i src).2.2 = some e ∧
      ((e = .ErrLength ∧ src.length % 2 = 1) ∨
        ∃ b ∈ src, ¬ isHexDigit b ∧ e = .InvalidByteError b) := by
  induction src using two_step generalizing dst i with
  | h0 => exact absurd (by simp [ValidHex]) h
  | h1 p =>
    by_cases hp : reverseHexTable p > 0x0f
    · exact ⟨.InvalidByteError p, by simp [decodeLoop, hp],
        Or.inr ⟨p, by simp, (reverseHexTable_gt_iff p).mp hp, rfl⟩⟩
    · exact ⟨.ErrLength, by simp [decodeLoop, hp], Or.inl ⟨rfl, rfl⟩⟩
  | h2 p q rest ih =>
    by_cases hp : reverseHexTable p > 0x0f
    · exact ⟨.InvalidByteError p, by simp [decodeLoop, hp],
        Or.inr ⟨p, by simp, (reverseHexTable_gt_iff p).mp hp, rfl⟩⟩
    · by_cases hq : reverseHexTable q > 0x0f
      · exact ⟨.InvalidByteError q, by simp [decodeLoop, hp, hq],
          Or.inr ⟨q, by simp, (reverseHexTable_gt_iff q).mp hq, rfl⟩⟩
      · have hp1 : isHexDigit p := not_not.mp (mt (reverseHexTable_gt_iff p).mpr hp)
        have hq1 : isHexDigit q := not_not.mp (mt (reverseHexTable_gt_iff q).mpr hq)
        have hr : ¬ ValidHex rest := fun hr => h (ValidHex_cons_cons.mpr ⟨hp1, hq1, hr⟩)
        obtain ⟨e, he, hwhy⟩ := ih hr
          (dst.set i ((reverseHexTable p <<< 4) ||| reverseHexTable q)) (i + 1)
        refine ⟨e, ?_, ?_⟩
        · unfold decodeLoop
          simpa only [hp, hq, if_false] using he
        · rcases hwhy with ⟨h1, h2⟩ | ⟨b, hb, h1, h2⟩
          · exact Or.inl ⟨h1, by simp only [List.length_cons]; omega⟩
          · exact Or.inr ⟨b, by simp [hb], h1, h2⟩

theorem Decode_valid {src : Bytes} (h : ValidHex src) :
    Decode (make (DecodedLen src.length)) src = (hexBytes src, src.length / 2, none) := by
  unfold Decode
  rw [decodeLoop_valid h _ _ (by simp [make, DecodedLen])]
  simp [make, DecodedLen]

theorem Decode_invalid {src : Bytes} (h : ¬ ValidHex src) (dst : Bytes) :
    ∃ e, (Decode dst src).2.2 = some e ∧
      ((e = .ErrLength ∧ src.length % 2 = 1) ∨
        ∃ b ∈ src, ¬ isHexDigit b ∧ e = .InvalidByteError b) :=
  decodeLoop_invalid h dst 0

set_option maxRecDepth 100000 in
theorem hexEncode_byte : ∀ v < 256,
    isHexDigit (hextable.getD (v / 16) 0) ∧ isHexDigit (hextable.getD (v % 16) 0) ∧
      16 * hexValue (hextable.getD (v / 16) 0) + hexValue (hextable.getD (v % 16) 0) = v := by
  decide

theorem hexEncode_cons (v : Nat) (k : Bytes) :
    hexEncode (v :: k) =
      hextable.getD (v / 16) 0 :: hextable.getD (v % 16) 0 :: hexEncode k := by
  simp [hexEncode]

/-- Decoding undoes encoding: the hexadecimal writing of a byte string is
valid and stands for that byte string. -/
theorem hexBytes_hexEncode (k : Bytes) (hk : ∀ v ∈ k, v < 256) :
    ValidHex (hexEncode k) ∧ hexBytes (hexEncode k) = k := by
  induction k with
  | nil => exact ⟨by decide, rfl⟩
  | cons v rest ih =>
    obtain ⟨h1, h2, h3⟩ := hexEncode_byte v (hk v (by simp))
    obtain ⟨i1, i2⟩ := ih fun x hx => hk x (by simp [hx])
    rw [hexEncode_cons]
    exact ⟨ValidHex_cons_cons.mpr ⟨h1, h2, i1⟩, by simp only [hexBytes, h3, i2]⟩

/-! ## Lemmas on `generateJWT` -/

section
variable {Data E : Type}

theorem generateJWT_of_length_ne (L : Lib Data E) (c : Client) (now : Time)
    (h : (Split c.Key 0x3a).length ≠ 2) :
    generateJWT L c now = ([], some .invalidKeyFormat) := by
  simp [generateJWT, h]

theorem generateJWT_of_invalid (L : Lib Data E) (c : Client) (now : Time) {id hexSecret : Bytes}
    (hs : Split c.Key 0x3a = [id, hexSecret]) (hh : ¬ ValidHex hexSecret) :
    ∃ e, (Decode (make (DecodedLen hexSecret.length)) hexSecret).2.2 = some e ∧
      generateJWT L c now = ([], some (.hex e)) := by
  obtain ⟨e, he, _⟩ := Decode_invalid hh (make (DecodedLen hexSecret.length))
  refine ⟨e, he, ?_⟩
  unfold generateJWT
  simp only [hs, List.length_cons, List.length_nil]
  rcases hd : Decode (make (DecodedLen hexSecret.length)) hexSecret with ⟨d, n, err⟩
  rw [hd] at he
  simp at he
  subst he
  simp [hd]

theorem generateJWT_of_valid (L : Lib Data E) (c : Client) (now : Time) {id hexSecret : Bytes}
    (hs : Split c.Key 0x3a = [id, hexSecret]) (hh : ValidHex hexSecret) :
    generateJWT L c now = returned (L.SignedString (jwtToken id now) (hexBytes hexSecret)) := by
  unfold generateJWT
  simp [hs, Decode_valid hh]

end

theorem ValidHex_not_mem_colon {s : Bytes} (h : ValidHex s) : 0x3a ∉ s := by
  intro hm
  have := h.2 _ hm
  simp [isHexDigit] at this

theorem Split_iff_SplitsAs {key id secret : Bytes} :
    Split key 0x3a = [id, secret] ↔ SplitsAs key id secret :=
  Split_pair_iff

theorem returned_snd_ne {E : Type} (r : Bytes × Option E) :
    (returned r).2 ≠ some .invalidKeyFormat ∧ ∀ e, (returned r).2 ≠ some (.hex e) := by
  rcases r with ⟨s, _ | err⟩ <;> simp [returned]

/-! ## Lemmas on `time` -/

theorem wrap64_of_range {x : Int} (h1 : -9223372036854775808 ≤ x) (h2 : x ≤ 9223372036854775807) :
    wrap64 x = x := by
  unfold wrap64
  omega

theorem toInt64_val_of_range {x : Int} (h1 : -9223372036854775808 ≤ x)
    (h2 : x ≤ 9223372036854775807) : (toInt64 x).val = x :=
  wrap64_of_range h1 h2

theorem Time.sec_range (t : Time) :
    -9223372036854775808 ≤ t.sec ∧ t.sec ≤ 9223372036854775807 := by
  have he := t.ext.property
  have hw := t.wallSec.isLt
  have hW : wallToInternal = 59453308800 := by decide
  unfold Time.sec
  split
  · rw [hW, wrap64_of_range (by omega) (by omega)]
    omega
  · exact he

theorem Time.sec_stripMono (t : Time) : t.stripMono.sec = t.sec := by
  have hr := t.sec_range
  unfold Time.stripMono
  split
  · simp only [Time.sec, Bool.false_eq_true, if_false]
    exact toInt64_val_of_range hr.1 hr.2
  · rfl

theorem Time.stripMono_hasMonotonic (t : Time) : t.stripMono.hasMonotonic = false := by
  unfold Time.stripMono
  split
  · rfl
  · simpa using ‹¬ t.hasMonotonic = true›

theorem Time.addSec_of_ext {t : Time} (h : t.hasMonotonic = false) (d : Int) (hd : 0 < d)
    (hr : t.ext.val + d ≤ 9223372036854775807) :
    (t.addSec d).hasMonotonic = false ∧ (t.addSec d).ext.val = t.ext.val + d := by
  have he := t.ext.property
  have hs : wrap64 (t.ext.val + d) = t.ext.val + d := wrap64_of_range (by omega) hr
  unfold Time.addSec Time.stripMono
  simp only [h, Bool.false_eq_true, false_and, if_false, hs]
  have : decide (t.ext.val + d > t.ext.val) = decide (d > 0) := by
    simp [hd]
  rw [if_pos this]
  exact ⟨rfl, toInt64_val_of_range (by omega) hr⟩

theorem Time.sec_addSec (t : Time) (d : Int) (hd : 0 < d) (hd2 : d ≤ 9223372036)
    (hr : t.sec + d ≤ 9223372036854775807) : (t.addSec d).sec = t.sec + d := by
  cases hm : t.hasMonotonic
  · have hs : t.sec = t.ext.val := by simp [Time.sec, hm]
    rw [hs] at hr ⊢
    obtain ⟨h1, h2⟩ := Time.addSec_of_ext hm d hd hr
    simp [Time.sec, h1, h2]
  · have hw := t.wallSec.isLt
    have hW : wallToInternal = 59453308800 := by decide
    have hs : t.sec = 59453308800 + (t.wallSec.val : Int) := by
      simp only [Time.sec, hm, if_true, hW]
      exact wrap64_of_range (by omega) (by omega)
    have hws : wrap64 ((t.wallSec.val : Int) + d) = (t.wallSec.val : Int) + d :=
      wrap64_of_range (by omega) (by omega)
    by_cases hfit : (t.wallSec.val : Int) + d ≤ 8589934591
    · have hc : t.hasMonotonic = true ∧ 0 ≤ (t.wallSec.val : Int) + d ∧
          (t.wallSec.val : Int) + d ≤ 8589934591 := ⟨hm, by omega, hfit⟩
      unfold Time.addSec
      simp only [hws]
      rw [if_pos hc]
      simp only [Time.sec, hm, if_true, hW, toWallSec]
      unfold wrap64
      omega
    · have hc : ¬ (t.hasMonotonic = true ∧ 0 ≤ (t.wallSec.val : Int) + d ∧
          (t.wallSec.val : Int) + d ≤ 8589934591) := fun h => hfit h.2.2
      have h1 : t.stripMono.hasMonotonic = false := t.stripMono_hasMonotonic
      have h2 : t.stripMono.ext.val = t.sec := by
        have := t.sec_stripMono
        simpa [Time.sec, h1] using this
      have hsum : wrap64 (t.stripMono.ext.val + d) = t.sec + d := by
        rw [h2]
        exact wrap64_of_range (by omega) hr
      have hdec : decide (t.sec + d > t.stripMono.ext.val) = decide (d > 0) := by
        rw [h2]
        simp [hd]
      unfold Time.addSec
      simp only [hws]
      rw [if_neg hc]
      simp only [hsum]
      rw [if_pos hdec]
      have hx : ∀ x, ({ t.stripMono with ext := x } : Time).sec = x.val := fun x => by
        simp [Time.sec, h1]
      rw [hx]
      exact toInt64_val_of_range (by omega) hr

theorem Time.sec_Add_five_minutes (t : Time) (hr : t.sec + 300 ≤ 9223372036854775807) :
    (t.Add (5 * Minute)).sec = t.sec + 300 := by
  have h1 : Int.tdiv (5 * Minute) 1000000000 = 300 := by decide
  have h2 : Int.tmod (5 * Minute) 1000000000 = 0 := by decide
  have hn := t.nsec.isLt
  have hc : (if (t.nsec.val : Int) + 0 ≥ 1000000000
        then ((300 : Int) + 1, (t.nsec.val : Int) + 0 - 1000000000)
      else if (t.nsec.val : Int) + 0 < 0 then (300 - 1, (t.nsec.val : Int) + 0 + 1000000000)
      else (300, (t.nsec.val : Int) + 0)) = (300, (t.nsec.val : Int) + 0) := by
    rw [if_neg (by omega), if_neg (by omega)]
  have hs : ∀ n, ({ t with nsec := n } : Time).sec = t.sec := fun _ => rfl
  have ha := Time.sec_addSec { t with nsec := toNsec ((t.nsec.val : Int) + 0) } 300
    (by decide) (by decide) (by rw [hs]; exact hr)
  rw [hs] at ha
  unfold Time.Add
  simp only [h1, h2, hc]
  split
  · rename_i hm
    split
    · rw [Time.sec_stripMono, ha]
    · simp only [Time.sec, hm, if_true] at ha ⊢
      exact ha
  · exact ha

theorem Add_five_minutes_Unix (now : Time) (h : now.Unix ≤ 9223371974719178707) :
    (now.Add (5 * Minute)).Unix - now.Unix = 300 := by
  have hU : internalToUnix = -62135596800 := by decide
  have hr := now.sec_range
  unfold Time.Unix Time.unixSec at h ⊢
  rw [hU] at h ⊢
  have hb : now.sec + 300 ≤ 9223372036854775807 := by
    unfold wrap64 at h
    omega
  rw [Time.sec_Add_five_minutes now hb]
  unfold wrap64 at h ⊢
  omega

theorem Split_length_two {s : Bytes} {sep : Nat} (h : (Split s sep).length = 2) :
    ∃ a b, Split s sep = [a, b] := by
  match hsp : Split s sep, h with
  | [a, b], _ => exact ⟨a, b, rfl⟩

theorem jwtToken_facts (id : Bytes) (now : Time) :
    (jwtToken id now).Claims.get (lit "aud") = some (.str (lit "/admin/")) ∧
    (jwtToken id now).Claims.get (lit "iat") = some (.int now.Unix) ∧
    (jwtToken id now).Claims.get (lit "exp") = some (.int (now.Add (5 * Minute)).Unix) ∧
    (jwtToken id now).Claims.length = 3 ∧
    (jwtToken id now).Method = SigningMethodHS256 ∧
    (jwtToken id now).Header.get (lit "alg") = some (.str (lit "HS256")) ∧
    (jwtToken id now).Header.get (lit "typ") = some (.str (lit "JWT")) ∧
    (jwtToken id now).Header.get (lit "kid") = some (.str id) := by
  have k1 : lit "aud" ≠ lit "iat" := by decide
  have k2 : lit "exp" ≠ lit "iat" := by decide
  have k3 : lit "aud" ≠ lit "exp" := by decide
  have k4 : lit "typ" ≠ lit "kid" := by decide
  have k5 : lit "alg" ≠ lit "kid" := by decide
  have k6 : lit "kid" ≠ lit "alg" := by decide
  have k7 : lit "kid" ≠ lit "typ" := by decide
  have k8 : lit "typ" ≠ lit "alg" := by decide
  simp [jwtToken, NewWithClaims, Map.get, Map.set, List.find?, List.filter, k1, k2, k3, k4, k5,
    k6, k7, k8, SigningMethodHMAC.Alg, SigningMethodHS256]

/-! ## The claims on `generateJWT` -/

section
variable {Data E : Type}

/-- C1, as the code has it: `generateJWT` returns the error
"Invalid Client.Key format", with an empty token, exactly for the keys that do
not contain exactly one `:`. -/
theorem generateJWT_invalidKeyFormat_iff (L : Lib Data E) (c : Client) (now : Time) :
    generateJWT L c now = ([], some .invalidKeyFormat) ↔ c.Key.count 0x3a ≠ 1 := by
  constructor
  · intro h hc
    have hl : (Split c.Key 0x3a).length = 2 := by rw [Split_length, hc]
    obtain ⟨id, secret, hs⟩ := Split_length_two hl
    by_cases hv : ValidHex secret
    · have := (returned_snd_ne (L.SignedString (jwtToken id now) (hexBytes secret))).1
      rw [← generateJWT_of_valid L c now hs hv, h] at this
      exact this rfl
    · obtain ⟨e, _, he⟩ := generateJWT_of_invalid L c now hs hv
      rw [h] at he
      simp at he
  · intro hc
    apply generateJWT_of_length_ne
    rw [Split_length]
    omega

/-- C1, as stated, fails: the keys `:68656c6c6f` (empty id) and `abc123:`
(empty secret) are not two non-empty parts around one `:`, and `generateJWT`
does not reject them: it returns what signing returns, for the key identifier
`""` and the secret `hello`, and for the key identifier `abc123` and the
empty secret. -/
theorem generateJWT_accepts_empty_parts :
    ¬ TwoNonEmptyParts (lit ":68656c6c6f") ∧ ¬ TwoNonEmptyParts (lit "abc123:") ∧
    (∀ (Data E : Type) (L : Lib Data E) (now : Time),
      generateJWT L (NewClient (lit "http://h") (lit ":68656c6c6f")) now =
          returned (L.SignedString (jwtToken [] now) (lit "hello")) ∧
        generateJWT L (NewClient (lit "http://h") (lit ":68656c6c6f")) now ≠
          ([], some .invalidKeyFormat) ∧
        generateJWT L (NewClient (lit "http://h") (lit "abc123:")) now =
          returned (L.SignedString (jwtToken (lit "abc123") now) []) ∧
        generateJWT L (NewClient (lit "http://h") (lit "abc123:")) now ≠
          ([], some .invalidKeyFormat)) := by
  have s1 : Split (lit ":68656c6c6f") 0x3a = [[], lit "68656c6c6f"] := by decide
  have s2 : Split (lit "abc123:") 0x3a = [lit "abc123", []] := by decide
  refine ⟨?_, ?_, ?_⟩
  · rintro ⟨id, secret, hs, hid, _⟩
    have := Split_iff_SplitsAs.mpr hs
    rw [s1] at this
    simp at this
    exact hid this.1
  · rintro ⟨id, secret, hs, _, hsec⟩
    have := Split_iff_SplitsAs.mpr hs
    rw [s2] at this
    simp at this
    exact hsec this.2
  · intro Data E L now
    have e1 := generateJWT_of_valid L (NewClient (lit "http://h") (lit ":68656c6c6f")) now
      s1 (by decide)
    have e2 := generateJWT_of_valid L (NewClient (lit "http://h") (lit "abc123:")) now
      s2 (by decide)
    have h1 : hexBytes (lit "68656c6c6f") = lit "hello" := by decide
    have h2 : hexBytes [] = [] := rfl
    rw [h1] at e1
    rw [h2] at e2
    refine ⟨e1, ?_, e2, ?_⟩
    · intro h
      have := (returned_snd_ne (L.SignedString (jwtToken [] now) (lit "hello"))).1
      rw [← e1, h] at this
      exact this rfl
    · intro h
      have := (returned_snd_ne (L.SignedString (jwtToken (lit "abc123") now) [])).1
      rw [← e2, h] at this
      exact this rfl

/-- C2: for a key `id:secret` with one `:`, when `secret` has a byte that is
no hexadecimal digit or has odd length, `generateJWT` returns an error of
`hex.Decode` (an invalid byte of `secret`, or the odd length) and the empty
token, whatever the signing library is: nothing is signed. -/
theorem generateJWT_decoding_error (c : Client) (now : Time) (id secret : Bytes)
    (hs : SplitsAs c.Key id secret)
    (hbad : (∃ b ∈ secret, ¬ isHexDigit b) ∨ secret.length % 2 = 1) :
    ∃ e : HexError,
      ((e = .ErrLength ∧ secret.length % 2 = 1) ∨
        ∃ b ∈ secret, ¬ isHexDigit b ∧ e = .InvalidByteError b) ∧
      ∀ (Data E : Type) (L : Lib Data E), generateJWT L c now = ([], some (.hex e)) := by
  have hv : ¬ ValidHex secret := by
    rintro ⟨hl, hd⟩
    rcases hbad with ⟨b, hb, hnb⟩ | ho
    · exact hnb (hd b hb)
    · omega
  have hsp := Split_iff_SplitsAs.mpr hs
  obtain ⟨e, he, hwhy⟩ := Decode_invalid hv (make (DecodedLen secret.length))
  refine ⟨e, hwhy, fun Data E L => ?_⟩
  obtain ⟨e2, he2, hg⟩ := generateJWT_of_invalid L c now hsp hv
  rw [he] at he2
  cases he2
  exact hg

/-- Witness of C2 at the key `abc123:68z5`: the error is the invalid byte `z`. -/
theorem generateJWT_decoding_error_witness :
    ∃ e : HexError,
      ((e = .ErrLength ∧ (lit "68z5").length % 2 = 1) ∨
        ∃ b ∈ lit "68z5", ¬ isHexDigit b ∧ e = .InvalidByteError b) ∧
      ∀ (Data E : Type) (L : Lib Data E),
        generateJWT L (NewClient (lit "http://h") (lit "abc123:68z5")) (unixTime 0 0) =
          ([], some (.hex e)) :=
  generateJWT_decoding_error (NewClient (lit "http://h") (lit "abc123:68z5")) (unixTime 0 0)
    (lit "abc123") (lit "68z5") (by decide) (Or.inl ⟨0x7a, by decide, by decide⟩)

/-- C3, as the code has it: for a key `id:secret` with `id` free of `:` and
`secret` an even-length string of hexadecimal digits, and every clock reading
`now` at least 300 seconds before the largest second of a `time.Time`
(`now.Unix() ≤ 9223371974719178707`), `generateJWT` signs a token with claims
`aud = "/admin/"`, `iat = now` in Unix seconds and `exp` with
`exp - iat = 300`, signing method HS256 and header field `kid = id`; the key
is the byte string `secret` stands for, which `hex.Decode` leaves in the
buffer and which is `k` when `secret` is the hexadecimal writing of `k`;
`generateJWT` returns the signed string without error when signing that token
succeeds. -/
theorem generateJWT_signs_token (L : Lib Data E) (c : Client) (now : Time) (id secret : Bytes)
    (hk : c.Key = id ++ 0x3a :: secret) (hid : 0x3a ∉ id) (hh : ValidHex secret)
    (hnow : now.Unix ≤ 9223371974719178707)
    (hS : (L.SignedString (jwtToken id now) (hexBytes secret)).2 = none) :
    generateJWT L c now = ((L.SignedString (jwtToken id now) (hexBytes secret)).1, none) ∧
    Decode (make (DecodedLen secret.length)) secret = (hexBytes secret, secret.length / 2, none) ∧
    (∀ k : Bytes, (∀ v ∈ k, v < 256) → secret = hexEncode k → hexBytes secret = k) ∧
    (jwtToken id now).Claims.get (lit "aud") = some (.str (lit "/admin/")) ∧
    (jwtToken id now).Claims.get (lit "iat") = some (.int now.Unix) ∧
    (∃ exp, (jwtToken id now).Claims.get (lit "exp") = some (.int exp) ∧ exp - now.Unix = 300) ∧
    (jwtToken id now).Claims.length = 3 ∧
    (jwtToken id now).Method = SigningMethodHS256 ∧
    (jwtToken id now).Header.get (lit "alg") = some (.str (lit "HS256")) ∧
    (jwtToken id now).Header.get (lit "kid") = some (.str id) := by
  have hs : Split c.Key 0x3a = [id, secret] :=
    Split_iff_SplitsAs.mpr ⟨hk, hid, ValidHex_not_mem_colon hh⟩
  obtain ⟨f1, f2, f3, f4, f5, f6, _, f8⟩ := jwtToken_facts id now
  refine ⟨?_, Decode_valid hh, fun k hk256 hsk => ?_, f1, f2,
    ⟨_, f3, Add_five_minutes_Unix now hnow⟩, f4, f5, f6, f8⟩
  · rw [generateJWT_of_valid L c now hs hh]
    rcases hr : L.SignedString (jwtToken id now) (hexBytes secret) with ⟨str, err⟩
    rw [hr] at hS
    simp only at hS
    subst hS
    rfl
  · rw [hsk]
    exact (hexBytes_hexEncode k hk256).2

/-- Witness of C3 at the key `abc123:68656c6c6f`, with the stand-in library
and a reading of `time.Now()` at the Unix second 1700000000 with a monotonic
reading: the key is `hello`, the claims are `iat = 1700000000` and
`exp = 1700000300`. -/
theorem generateJWT_signs_token_witness :
    (generateJWT stubLib (NewClient (lit "http://h") (lit "abc123:68656c6c6f"))
        (Time.mk true 4382288000 0 (toInt64 1000)) =
      ((stubLib.SignedString (jwtToken (lit "abc123") (Time.mk true 4382288000 0 (toInt64 1000)))
        (hexBytes (lit "68656c6c6f"))).1, none) ∧
    Decode (make (DecodedLen (lit "68656c6c6f").length)) (lit "68656c6c6f") =
      (hexBytes (lit "68656c6c6f"), (lit "68656c6c6f").length / 2, none) ∧
    (∀ k : Bytes, (∀ v ∈ k, v < 256) → lit "68656c6c6f" = hexEncode k →
      hexBytes (lit "68656c6c6f") = k) ∧
    (jwtToken (lit "abc123") (Time.mk true 4382288000 0 (toInt64 1000))).Claims.get (lit "aud") =
      some (.str (lit "/admin/")) ∧
    (jwtToken (lit "abc123") (Time.mk true 4382288000 0 (toInt64 1000))).Claims.get (lit "iat") =
      some (.int (Time.Unix (Time.mk true 4382288000 0 (toInt64 1000)))) ∧
    (∃ exp, (jwtToken (lit "abc123") (Time.mk true 4382288000 0 (toInt64 1000))).Claims.get
        (lit "exp") = some (.int exp) ∧
      exp - Time.Unix (Time.mk true 4382288000 0 (toInt64 1000)) = 300) ∧
    (jwtToken (lit "abc123") (Time.mk true 4382288000 0 (toInt64 1000))).Claims.length = 3 ∧
    (jwtToken (lit "abc123") (Time.mk true 4382288000 0 (toInt64 1000))).Method =
      SigningMethodHS256 ∧
    (jwtToken (lit "abc123") (Time.mk true 4382288000 0 (toInt64 1000))).Header.get (lit "alg") =
      some (.str (lit "HS256")) ∧
    (jwtToken (lit "abc123") (Time.mk true 4382288000 0 (toInt64 1000))).Header.get (lit "kid") =
      some (.str (lit "abc123"))) ∧
    hexBytes (lit "68656c6c6f") = lit "hello" ∧
    lit "68656c6c6f" = hexEncode (lit "hello") ∧
    generateJWT stubLib (NewClient (lit "http://h") (lit "abc123:68656c6c6f"))
        (Time.mk true 4382288000 0 (toInt64 1000)) = (lit "abc123.hello", none) ∧
    Time.Unix (Time.mk true 4382288000 0 (toInt64 1000)) = 1700000000 ∧
    (jwtToken (lit "abc123") (Time.mk true 4382288000 0 (toInt64 1000))).Claims.get (lit "exp") =
      some (.int 1700000300) :=
  ⟨generateJWT_signs_token stubLib (NewClient (lit "http://h") (lit "abc123:68656c6c6f"))
      (Time.mk true 4382288000 0 (toInt64 1000)) (lit "abc123") (lit "68656c6c6f")
      (by decide) (by decide) (by decide) (by decide) (by decide),
    by decide, by decide, by decide, by decide, by decide⟩

/-- C3, as stated, fails at a clock reading less than 300 seconds before the
largest second of a `time.Time`: at `time.Unix(9223371974719178907, 0)` the
addition of five minutes stops at the largest second, and the token
`generateJWT` signs for the key `abc123:68656c6c6f` has
`iat = 9223371974719178907` and `exp = 9223371974719179007`, 100 seconds
apart. -/
theorem generateJWT_expiry_saturates :
    (∀ (Data E : Type) (L : Lib Data E),
      generateJWT L (NewClient (lit "http://h") (lit "abc123:68656c6c6f"))
          (unixTime 9223371974719178907 0) =
        returned (L.SignedString (jwtToken (lit "abc123") (unixTime 9223371974719178907 0))
          (lit "hello"))) ∧
    (jwtToken (lit "abc123") (unixTime 9223371974719178907 0)).Claims.get (lit "iat") =
      some (.int 9223371974719178907) ∧
    (jwtToken (lit "abc123") (unixTime 9223371974719178907 0)).Claims.get (lit "exp") =
      some (.int 9223371974719179007) ∧
    (9223371974719179007 : Int) - 9223371974719178907 = 100 ∧
    ¬ ((unixTime 9223371974719178907 0).Add (5 * Minute)).Unix -
        (unixTime 9223371974719178907 0).Unix = 300 := by
  refine ⟨fun Data E L => ?_, by decide, by decide, by decide, by decide⟩
  have s1 : Split (lit "abc123:68656c6c6f") 0x3a = [lit "abc123", lit "68656c6c6f"] := by
    decide
  have h1 : hexBytes (lit "68656c6c6f") = lit "hello" := by decide
  have e1 := generateJWT_of_valid L (NewClient (lit "http://h") (lit "abc123:68656c6c6f"))
    (unixTime 9223371974719178907 0) s1 (by decide)
  rw [h1] at e1
  exact e1

/-- C10: there is no check on the length of the decoded secret.  For a key
`id:secret` with `id` free of `:` and `secret` an even-length string of
hexadecimal digits of any length, `generateJWT` returns what signing returns
for a key of half as many bytes as `secret` has digits; and the keys of this
form are the only ones for which `generateJWT` returns neither the key-format
error nor an error of `hex.Decode`. -/
theorem generateJWT_no_minimum_length (L : Lib Data E) (c : Client) (now : Time) :
    (∀ id secret, c.Key = id ++ 0x3a :: secret → 0x3a ∉ id → ValidHex secret →
      generateJWT L c now = returned (L.SignedString (jwtToken id now) (hexBytes secret)) ∧
      Decode (make (DecodedLen secret.length)) secret =
        (hexBytes secret, secret.length / 2, none) ∧
      2 * (hexBytes secret).length = secret.length) ∧
    ((∃ id secret, c.Key = id ++ 0x3a :: secret ∧ 0x3a ∉ id ∧ ValidHex secret) ↔
      ((generateJWT L c now).2 ≠ some .invalidKeyFormat ∧
        ∀ e, (generateJWT L c now).2 ≠ some (.hex e))) := by
  have fwd : ∀ id secret, c.Key = id ++ 0x3a :: secret → 0x3a ∉ id → ValidHex secret →
      generateJWT L c now = returned (L.SignedString (jwtToken id now) (hexBytes secret)) :=
    fun id secret hk hid hh =>
      generateJWT_of_valid L c now
        (Split_iff_SplitsAs.mpr ⟨hk, hid, ValidHex_not_mem_colon hh⟩) hh
  refine ⟨fun id secret hk hid hh => ⟨fwd id secret hk hid hh, Decode_valid hh, ?_⟩, ?_, ?_⟩
  · rw [hexBytes_length]
    have := hh.1
    omega
  · rintro ⟨id, secret, hk, hid, hh⟩
    rw [fwd id secret hk hid hh]
    exact returned_snd_ne _
  · rintro ⟨h1, h2⟩
    by_cases hl : (Split c.Key 0x3a).length = 2
    · obtain ⟨id, secret, hs⟩ := Split_length_two hl
      by_cases hv : ValidHex secret
      · obtain ⟨hk, hid, _⟩ := Split_iff_SplitsAs.mp hs
        exact ⟨id, secret, hk, hid, hv⟩
      · obtain ⟨e, _, he⟩ := generateJWT_of_invalid L c now hs hv
        exact absurd (by rw [he]) (h2 e)
    · exact absurd (by rw [generateJWT_of_length_ne L c now hl]) h1

end

/-! ## Lemmas on `Sprintf` and on headers -/

theorem Sprintf_two (a b : Bytes) : Sprintf (lit "%s%s") [a, b] = a ++ b := by
  have h : lit "%s%s" = [0x25, 0x73, 0x25, 0x73] := by decide
  rw [h]
  simp [Sprintf]

theorem Sprintf_endpoint (p api resource : Bytes) :
    Sprintf (lit "/%s/api/%s/%s/") [p, api, resource] =
      lit "/" ++ p ++ lit "/api/" ++ api ++ lit "/" ++ resource ++ lit "/" := by
  have h : lit "/%s/api/%s/%s/" =
      [0x2f, 0x25, 0x73, 0x2f, 0x61, 0x70, 0x69, 0x2f, 0x25, 0x73, 0x2f, 0x25, 0x73, 0x2f] := by
    decide
  have h1 : lit "/" = [0x2f] := by decide
  have h2 : lit "/api/" = [0x2f, 0x61, 0x70, 0x69, 0x2f] := by decide
  rw [h, h1, h2]
  simp [Sprintf]

theorem Sprintf_id (id : Bytes) : Sprintf (lit "%s/") [id] = id ++ lit "/" := by
  have h : lit "%s/" = [0x25, 0x73, 0x2f] := by decide
  have h1 : lit "/" = [0x2f] := by decide
  rw [h, h1]
  simp [Sprintf]

theorem Sprintf_slug (slug : Bytes) :
    Sprintf (lit "slug/%s/") [slug] = lit "slug/" ++ slug ++ lit "/" := by
  have h : lit "slug/%s/" = [0x73, 0x6c, 0x75, 0x67, 0x2f, 0x25, 0x73, 0x2f] := by decide
  have h1 : lit "/" = [0x2f] := by decide
  have h2 : lit "slug/" = [0x73, 0x6c, 0x75, 0x67, 0x2f] := by decide
  rw [h, h1, h2]
  simp [Sprintf]

/-- The headers `NewRequest` adds to a new request, before the authorization
header. -/
theorem headers_three (ua version : Bytes) :
    Header.Add (Header.Add (Header.Add [] (lit "User-Agent") ua) (lit "Content-Type")
        (lit "application/json")) (lit "Accept-Version") version =
      [(lit "Accept-Version", [version]), (lit "Content-Type", [lit "application/json"]),
        (lit "User-Agent", [ua])] := by
  have c1 : CanonicalMIMEHeaderKey (lit "User-Agent") = lit "User-Agent" := by decide
  have c2 : CanonicalMIMEHeaderKey (lit "Content-Type") = lit "Content-Type" := by decide
  have c3 : CanonicalMIMEHeaderKey (lit "Accept-Version") = lit "Accept-Version" := by decide
  have k1 : lit "User-Agent" ≠ lit "Content-Type" := by decide
  have k2 : lit "User-Agent" ≠ lit "Accept-Version" := by decide
  have k3 : lit "Content-Type" ≠ lit "Accept-Version" := by decide
  simp [Header.Add, Header.Values, c1, c2, c3, k1, k2, k3, List.find?, List.filter]

theorem headers_four (ua version auth : Bytes) :
    Header.Add [(lit "Accept-Version", [version]), (lit "Content-Type", [lit "application/json"]),
        (lit "User-Agent", [ua])] (lit "Authorization") auth =
      [(lit "Authorization", [auth]), (lit "Accept-Version", [version]),
        (lit "Content-Type", [lit "application/json"]), (lit "User-Agent", [ua])] := by
  have c4 : CanonicalMIMEHeaderKey (lit "Authorization") = lit "Authorization" := by decide
  have k1 : lit "User-Agent" ≠ lit "Authorization" := by decide
  have k2 : lit "Accept-Version" ≠ lit "Authorization" := by decide
  have k3 : lit "Content-Type" ≠ lit "Authorization" := by decide
  simp [Header.Add, Header.Values, c4, k1, k2, k3, List.find?, List.filter]

/-! ## Lemmas on `NewRequest` -/

section
variable {Data E : Type}

theorem httpNewRequest_ok {L : Lib Data E} {method url : Bytes} {body : Option Bytes}
    {r : Request} (h : httpNewRequest L method url body = .ok r) :
    r.URL = url ∧ r.Header = [] ∧ r.Body = body := by
  unfold httpNewRequest at h
  generalize (if method = [] then lit "GET" else method) = m at h
  simp only at h
  split at h
  · cases h
  · split at h
    · cases h
    · cases h
      exact ⟨rfl, rfl, rfl⟩

theorem NewRequest_ok {L : Lib Data E} {c : Client} {now : Time} {method path : Bytes}
    {data : Option Data} {r : Request}
    (h : NewRequest L c now method path data = (some r, none)) :
    r.URL = c.URL ++ path ∧
    r.Header =
      (if c.Key = [] then []
        else [(lit "Authorization", [lit "Ghost " ++ (generateJWT L c now).1])]) ++
      [(lit "Accept-Version", [c.Version]), (lit "Content-Type", [lit "application/json"]),
        (lit "User-Agent", [userAgentOf c])] ∧
    (c.Key ≠ [] → (generateJWT L c now).2 = none) := by
  unfold NewRequest at h
  simp only [Sprintf_two] at h
  split at h
  · cases h
  · rename_i body hbody
    split at h
    · cases h
    · rename_i r0 hr0
      obtain ⟨hu, hh, _⟩ := httpNewRequest_ok hr0
      rw [hh, headers_three] at h
      unfold userAgentOf
      by_cases hk : c.Key = []
      · rw [if_neg (not_not.mpr hk)] at h
        cases h
        simp [hk, hu]
      · rw [if_pos hk] at h
        rcases hg : generateJWT L c now with ⟨token, _ | err⟩
        · rw [hg] at h
          simp only [headers_four] at h
          cases h
          simp [hk, hu]
        · rw [hg] at h
          simp at h

theorem NewRequest_of_encode_error {L : Lib Data E} (c : Client) (now : Time)
    (method path : Bytes) {data : Option Data} {e : E} (h : encodeBody L data = .error e) :
    NewRequest L c now method path data = (none, some (.request e)) := by
  unfold NewRequest
  simp [h]

theorem NewRequest_of_http_error {L : Lib Data E} (c : Client) (now : Time)
    {method path : Bytes} {data : Option Data} {body : Option Bytes} {e : HttpError E}
    (hb : encodeBody L data = .ok body)
    (h : httpNewRequest L method (c.URL ++ path) body = .error e) :
    NewRequest L c now method path data = (none, some (.buildRequest e)) := by
  unfold NewRequest
  simp [hb, Sprintf_two, h]

theorem NewRequest_of_token_error {L : Lib Data E} {c : Client} {now : Time}
    {method path : Bytes} {data : Option Data} {body : Option Bytes} {r0 : Request}
    {err : Error E} (hk : c.Key ≠ []) (hg : (generateJWT L c now).2 = some err)
    (hb : encodeBody L data = .ok body)
    (h : httpNewRequest L method (c.URL ++ path) body = .ok r0) :
    NewRequest L c now method path data = (none, some err) := by
  unfold NewRequest
  rcases hj : generateJWT L c now with ⟨token, e2⟩
  rw [hj] at hg
  simp only at hg
  subst hg
  simp [hb, Sprintf_two, h, hk]

theorem Values_without_authorization (version ua : Bytes) :
    Header.Values [(lit "Accept-Version", [version]),
        (lit "Content-Type", [lit "application/json"]), (lit "User-Agent", [ua])]
        (lit "Authorization") = [] ∧
    Header.Values [(lit "Accept-Version", [version]),
        (lit "Content-Type", [lit "application/json"]), (lit "User-Agent", [ua])]
        (lit "Accept-Version") = [version] ∧
    Header.Values [(lit "Accept-Version", [version]),
        (lit "Content-Type", [lit "application/json"]), (lit "User-Agent", [ua])]
        (lit "Content-Type") = [lit "application/json"] ∧
    Header.Values [(lit "Accept-Version", [version]),
        (lit "Content-Type", [lit "application/json"]), (lit "User-Agent", [ua])]
        (lit "User-Agent") = [ua] := by
  have c1 : CanonicalMIMEHeaderKey (lit "User-Agent") = lit "User-Agent" := by decide
  have c2 : CanonicalMIMEHeaderKey (lit "Content-Type") = lit "Content-Type" := by decide
  have c3 : CanonicalMIMEHeaderKey (lit "Accept-Version") = lit "Accept-Version" := by decide
  have c4 : CanonicalMIMEHeaderKey (lit "Authorization") = lit "Authorization" := by decide
  have k1 : lit "Accept-Version" ≠ lit "Authorization" := by decide
  have k2 : lit "Content-Type" ≠ lit "Authorization" := by decide
  have k3 : lit "User-Agent" ≠ lit "Authorization" := by decide
  have k4 : lit "Accept-Version" ≠ lit "Content-Type" := by decide
  have k5 : lit "Accept-Version" ≠ lit "User-Agent" := by decide
  have k6 : lit "Content-Type" ≠ lit "User-Agent" := by decide
  simp [Header.Values, c1, c2, c3, c4, k1, k2, k3, k4, k5, k6, List.find?]

theorem Values_with_authorization (auth version ua : Bytes) :
    Header.Values [(lit "Authorization", [auth]), (lit "Accept-Version", [version]),
        (lit "Content-Type", [lit "application/json"]), (lit "User-Agent", [ua])]
        (lit "Authorization") = [auth] ∧
    Header.Values [(lit "Authorization", [auth]), (lit "Accept-Version", [version]),
        (lit "Content-Type", [lit "application/json"]), (lit "User-Agent", [ua])]
        (lit "Accept-Version") = [version] ∧
    Header.Values [(lit "Authorization", [auth]), (lit "Accept-Version", [version]),
        (lit "Content-Type", [lit "application/json"]), (lit "User-Agent", [ua])]
        (lit "Content-Type") = [lit "application/json"] ∧
    Header.Values [(lit "Authorization", [auth]), (lit "Accept-Version", [version]),
        (lit "Content-Type", [lit "application/json"]), (lit "User-Agent", [ua])]
        (lit "User-Agent") = [ua] := by
  have c1 : CanonicalMIMEHeaderKey (lit "User-Agent") = lit "User-Agent" := by decide
  have c2 : CanonicalMIMEHeaderKey (lit "Content-Type") = lit "Content-Type" := by decide
  have c3 : CanonicalMIMEHeaderKey (lit "Accept-Version") = lit "Accept-Version" := by decide
  have c4 : CanonicalMIMEHeaderKey (lit "Authorization") = lit "Authorization" := by decide
  have k1 : lit "Authorization" ≠ lit "Accept-Version" := by decide
  have k2 : lit "Authorization" ≠ lit "Content-Type" := by decide
  have k3 : lit "Authorization" ≠ lit "User-Agent" := by decide
  have k4 : lit "Accept-Version" ≠ lit "Content-Type" := by decide
  have k5 : lit "Accept-Version" ≠ lit "User-Agent" := by decide
  have k6 : lit "Content-Type" ≠ lit "User-Agent" := by decide
  simp [Header.Values, c1, c2, c3, c4, k1, k2, k3, k4, k5, k6, List.find?]

/-- The values of the four headers of a request `NewRequest` returns. -/
theorem NewRequest_ok_values {L : Lib Data E} {c : Client} {now : Time} {method path : Bytes}
    {data : Option Data} {r : Request}
    (h : NewRequest L c now method path data = (some r, none)) :
    r.Header.Values (lit "Authorization") =
      (if c.Key = [] then [] else [lit "Ghost " ++ (generateJWT L c now).1]) ∧
    r.Header.Values (lit "Accept-Version") = [c.Version] ∧
    r.Header.Values (lit "Content-Type") = [lit "application/json"] ∧
    r.Header.Values (lit "User-Agent") = [userAgentOf c] := by
  obtain ⟨_, hH, _⟩ := NewRequest_ok h
  rw [hH]
  by_cases hk : c.Key = []
  · simp only [hk, if_true, List.nil_append]
    exact Values_without_authorization _ _
  · simp only [hk, if_false, List.singleton_append]
    exact Values_with_authorization _ _ _

/-! ## The claims on `NewRequest`, the endpoints and `NewClient` -/

/-- C4: a request `NewRequest` returns has no `Authorization` header when the
key of the client is empty, and otherwise exactly one, `Ghost ` followed by
the token `generateJWT` returned, without error, for that key. -/
theorem NewRequest_authorization (L : Lib Data E) (c : Client) (now : Time)
    (method path : Bytes) (data : Option Data) (r : Request)
    (h : NewRequest L c now method path data = (some r, none)) :
    (c.Key = [] → r.Header.Values (lit "Authorization") = []) ∧
    (c.Key ≠ [] → ∃ token, generateJWT L c now = (token, none) ∧
      r.Header.Values (lit "Authorization") = [lit "Ghost " ++ token]) := by
  obtain ⟨hA, _, _, _⟩ := NewRequest_ok_values h
  obtain ⟨_, _, hg⟩ := NewRequest_ok h
  refine ⟨fun hk => by rw [hA, if_pos hk], fun hk => ?_⟩
  rw [if_neg hk] at hA
  exact ⟨(generateJWT L c now).1, Prod.ext rfl (hg hk), hA⟩

/-- C5, as the code has it: when the key is not empty and `generateJWT` fails
with `err`, `NewRequest` returns no request; it returns `err` itself when the
payload is encoded and `http.NewRequest` accepts the method and the URL, and
otherwise the error of the step that failed before the token was asked
for. -/
theorem NewRequest_token_failure (L : Lib Data E) (c : Client) (now : Time)
    (method path : Bytes) (data : Option Data) (err : Error E)
    (hk : c.Key ≠ []) (hg : (generateJWT L c now).2 = some err) :
    (NewRequest L c now method path data).1 = none ∧
    ((∃ body r0, encodeBody L data = .ok body ∧
        httpNewRequest L method (c.URL ++ path) body = .ok r0 ∧
        NewRequest L c now method path data = (none, some err)) ∨
      (∃ e, encodeBody L data = .error e ∧
        NewRequest L c now method path data = (none, some (.request e))) ∨
      (∃ body e, encodeBody L data = .ok body ∧
        httpNewRequest L method (c.URL ++ path) body = .error e ∧
        NewRequest L c now method path data = (none, some (.buildRequest e)))) := by
  have key : (∃ body r0, encodeBody L data = .ok body ∧
        httpNewRequest L method (c.URL ++ path) body = .ok r0 ∧
        NewRequest L c now method path data = (none, some err)) ∨
      (∃ e, encodeBody L data = .error e ∧
        NewRequest L c now method path data = (none, some (.request e))) ∨
      (∃ body e, encodeBody L data = .ok body ∧
        httpNewRequest L method (c.URL ++ path) body = .error e ∧
        NewRequest L c now method path data = (none, some (.buildRequest e))) := by
    rcases hb : encodeBody L data with e | body
    · exact Or.inr (Or.inl ⟨e, rfl, NewRequest_of_encode_error c now method path hb⟩)
    · rcases hr : httpNewRequest L method (c.URL ++ path) body with e | r0
      · exact Or.inr (Or.inr ⟨body, e, rfl, hr, NewRequest_of_http_error c now hb hr⟩)
      · exact Or.inl ⟨body, r0, rfl, hr, NewRequest_of_token_error hk hg hb hr⟩
  refine ⟨?_, key⟩
  rcases key with ⟨_, _, _, _, h⟩ | ⟨_, _, h⟩ | ⟨_, _, _, _, h⟩ <;> rw [h]

/-- Witness of C5: the key `abc123` has no `:`, and the request fails with
the key-format error of `generateJWT`. -/
theorem NewRequest_token_failure_witness :
    (NewRequest stubLib (NewClient (lit "http://h") (lit "abc123")) (unixTime 0 0) (lit "GET")
        (lit "/x") none).1 = none ∧
    ((∃ body r0, encodeBody stubLib none = .ok body ∧
        httpNewRequest stubLib (lit "GET")
          ((NewClient (lit "http://h") (lit "abc123")).URL ++ lit "/x") body = .ok r0 ∧
        NewRequest stubLib (NewClient (lit "http://h") (lit "abc123")) (unixTime 0 0) (lit "GET")
          (lit "/x") none = (none, some .invalidKeyFormat)) ∨
      (∃ e, encodeBody stubLib none = .error e ∧
        NewRequest stubLib (NewClient (lit "http://h") (lit "abc123")) (unixTime 0 0) (lit "GET")
          (lit "/x") none = (none, some (.request e))) ∨
      (∃ body e, encodeBody stubLib none = .ok body ∧
        httpNewRequest stubLib (lit "GET")
          ((NewClient (lit "http://h") (lit "abc123")).URL ++ lit "/x") body = .error e ∧
        NewRequest stubLib (NewClient (lit "http://h") (lit "abc123")) (unixTime 0 0) (lit "GET")
          (lit "/x") none = (none, some (.buildRequest e)))) :=
  NewRequest_token_failure stubLib (NewClient (lit "http://h") (lit "abc123")) (unixTime 0 0)
    (lit "GET") (lit "/x") none .invalidKeyFormat (by decide) (by decide)

/-- C5, as stated, fails: with the key `abc123` (no `:`) `generateJWT` returns
the key-format error, but for the method `GET POST`, which `http.NewRequest`
rejects, `NewRequest` returns the error of `http.NewRequest`, wrapped, and not
the error of `generateJWT`. -/
theorem NewRequest_returns_earlier_error :
    (NewClient (lit "http://h") (lit "abc123")).Key ≠ [] ∧
    ∀ (Data E : Type) (L : Lib Data E) (now : Time),
      generateJWT L (NewClient (lit "http://h") (lit "abc123")) now =
        ([], some .invalidKeyFormat) ∧
      NewRequest L (NewClient (lit "http://h") (lit "abc123")) now (lit "GET POST")
        (lit "/x") none =
        (none, some (.buildRequest (.invalidMethod (lit "GET POST")))) ∧
      (NewRequest L (NewClient (lit "http://h") (lit "abc123")) now (lit "GET POST")
        (lit "/x") none).2 ≠
        (generateJWT L (NewClient (lit "http://h") (lit "abc123")) now).2 := by
  refine ⟨by decide, fun Data E L now => ?_⟩
  have hg : generateJWT L (NewClient (lit "http://h") (lit "abc123")) now =
      ([], some .invalidKeyFormat) :=
    generateJWT_of_length_ne L _ now (by decide)
  have hm : (if lit "GET POST" = [] then lit "GET" else lit "GET POST") = lit "GET POST" := by
    decide
  have hv : validMethod (lit "GET POST") = false := by decide
  have hr : httpNewRequest L (lit "GET POST")
      ((NewClient (lit "http://h") (lit "abc123")).URL ++ lit "/x") none =
      .error (.invalidMethod (lit "GET POST")) := by
    unfold httpNewRequest
    simp only [hm, hv]
    rfl
  have hn := NewRequest_of_http_error (NewClient (lit "http://h") (lit "abc123")) now
    (show encodeBody L none = .ok none from rfl) hr
  refine ⟨hg, hn, ?_⟩
  rw [hn, hg]
  simp

/-- Witness of C4, with the stand-in library: a client with the key
`abc123:68656c6c6f` and a client with the empty key. -/
theorem NewRequest_authorization_witness :
    (((NewClient (lit "http://h") (lit "abc123:68656c6c6f")).Key = [] →
        (stubRequest [(lit "Authorization", [lit "Ghost abc123.hello"])]).Header.Values
          (lit "Authorization") = []) ∧
      ((NewClient (lit "http://h") (lit "abc123:68656c6c6f")).Key ≠ [] → ∃ token,
        generateJWT stubLib (NewClient (lit "http://h") (lit "abc123:68656c6c6f"))
          (unixTime 1700000000 0) = (token, none) ∧
        (stubRequest [(lit "Authorization", [lit "Ghost abc123.hello"])]).Header.Values
          (lit "Authorization") = [lit "Ghost " ++ token])) ∧
    (((NewClient (lit "http://h") []).Key = [] →
        (stubRequest []).Header.Values (lit "Authorization") = []) ∧
      ((NewClient (lit "http://h") []).Key ≠ [] → ∃ token,
        generateJWT stubLib (NewClient (lit "http://h") []) (unixTime 1700000000 0) = (token, none) ∧
        (stubRequest []).Header.Values (lit "Authorization") = [lit "Ghost " ++ token])) :=
  ⟨NewRequest_authorization stubLib (NewClient (lit "http://h") (lit "abc123:68656c6c6f"))
      (unixTime 1700000000 0) (lit "POST") (lit "/ghost/api/admin/posts/") (some (lit "null"))
      (stubRequest [(lit "Authorization", [lit "Ghost abc123.hello"])]) (by decide),
    NewRequest_authorization stubLib (NewClient (lit "http://h") [])
      (unixTime 1700000000 0) (lit "POST") (lit "/ghost/api/admin/posts/") (some (lit "null"))
      (stubRequest []) (by decide)⟩

/-- C6: a request `NewRequest` returns has the header `Content-Type` with the
value `application/json`, `Accept-Version` with the `Version` of the client,
and `User-Agent` with the `UserAgent` of the client, or `go-ghost v1` when
that is empty; for a client of `NewClient`, `Accept-Version` is `v3.0`. -/
theorem NewRequest_headers (L : Lib Data E) (c : Client) (now : Time)
    (method path : Bytes) (data : Option Data) (r : Request)
    (h : NewRequest L c now method path data = (some r, none)) :
    r.Header.Values (lit "Content-Type") = [lit "application/json"] ∧
    r.Header.Values (lit "Accept-Version") = [c.Version] ∧
    (c.UserAgent ≠ [] → r.Header.Values (lit "User-Agent") = [c.UserAgent]) ∧
    (c.UserAgent = [] → r.Header.Values (lit "User-Agent") = [lit "go-ghost v1"]) ∧
    (∀ url key, c = NewClient url key →
      r.Header.Values (lit "Accept-Version") = [lit "v3.0"]) := by
  obtain ⟨_, hV, hC, hU⟩ := NewRequest_ok_values h
  refine ⟨hC, hV, fun hu => ?_, fun hu => ?_, fun url key hc => ?_⟩
  · rw [hU, userAgentOf, if_neg hu]
  · rw [hU, userAgentOf, if_pos hu]
  · rw [hV, hc]
    rfl

/-- Witness of C6, with the stand-in library, at a client of `NewClient`. -/
theorem NewRequest_headers_witness :
    (stubRequest []).Header.Values (lit "Content-Type") = [lit "application/json"] ∧
    (stubRequest []).Header.Values (lit "Accept-Version") =
      [(NewClient (lit "http://h") []).Version] ∧
    ((NewClient (lit "http://h") []).UserAgent ≠ [] →
      (stubRequest []).Header.Values (lit "User-Agent") =
        [(NewClient (lit "http://h") []).UserAgent]) ∧
    ((NewClient (lit "http://h") []).UserAgent = [] →
      (stubRequest []).Header.Values (lit "User-Agent") = [lit "go-ghost v1"]) ∧
    (∀ url key, NewClient (lit "http://h") [] = NewClient url key →
      (stubRequest []).Header.Values (lit "Accept-Version") = [lit "v3.0"]) :=
  NewRequest_headers stubLib (NewClient (lit "http://h") []) (unixTime 1700000000 0) (lit "POST")
    (lit "/ghost/api/admin/posts/") (some (lit "null")) (stubRequest []) (by decide)

/-- C7: `Endpoint` is `/`, the path of the client, `/api/`, the API, `/`, the
resource and `/`; `EndpointForID` appends the id and `/`, `EndpointForSlug`
appends `slug/`, the slug and `/`; for a client of `NewClient` the post
`abc123` of the API `admin` is at `/ghost/api/admin/post/abc123/` and the post
of slug `my-post` at `/ghost/api/admin/post/slug/my-post/`. -/
theorem Endpoint_composition (c : Client) (api resource id slug : Bytes) :
    Endpoint c api resource =
      lit "/" ++ c.GhostPath ++ lit "/api/" ++ api ++ lit "/" ++ resource ++ lit "/" ∧
    EndpointForID c api resource id = Endpoint c api resource ++ id ++ lit "/" ∧
    EndpointForSlug c api resource slug =
      Endpoint c api resource ++ lit "slug/" ++ slug ++ lit "/" ∧
    (∀ url key, EndpointForID (NewClient url key) (lit "admin") (lit "post") (lit "abc123") =
      lit "/ghost/api/admin/post/abc123/") ∧
    (∀ url key, EndpointForSlug (NewClient url key) (lit "admin") (lit "post") (lit "my-post") =
      lit "/ghost/api/admin/post/slug/my-post/") := by
  refine ⟨Sprintf_endpoint _ _ _, ?_, ?_, fun url key => ?_, fun url key => ?_⟩
  · rw [EndpointForID, Sprintf_id, List.append_assoc]
  · simp only [EndpointForSlug, Sprintf_slug, List.append_assoc]
  · show Sprintf (lit "/%s/api/%s/%s/") [lit "ghost", lit "admin", lit "post"] ++
      Sprintf (lit "%s/") [lit "abc123"] = _
    decide
  · show Sprintf (lit "/%s/api/%s/%s/") [lit "ghost", lit "admin", lit "post"] ++
      Sprintf (lit "slug/%s/") [lit "my-post"] = _
    decide

/-- C8: the URL `NewRequest` gives to `http.NewRequest` is the `URL` of the
client followed by the path, byte for byte: it is the URL of every request
returned, and `NewRequest` consults `url.Parse` at that string only; the base
`http://h/` and the path `/x` give `http://h//x`, the base `http://h` and the
path `x` give `http://hx`. -/
theorem NewRequest_url (L : Lib Data E) (c : Client) (now : Time)
    (method path : Bytes) (data : Option Data) :
    Sprintf (lit "%s%s") [c.URL, path] = c.URL ++ path ∧
    (∀ r, NewRequest L c now method path data = (some r, none) → r.URL = c.URL ++ path) ∧
    (∀ parse : Bytes → Option E, parse (c.URL ++ path) = L.urlParse (c.URL ++ path) →
      NewRequest { L with urlParse := parse } c now method path data =
        NewRequest L c now method path data) ∧
    Sprintf (lit "%s%s") [lit "http://h/", lit "/x"] = lit "http://h//x" ∧
    Sprintf (lit "%s%s") [lit "http://h", lit "x"] = lit "http://hx" := by
  refine ⟨Sprintf_two _ _, fun r h => (NewRequest_ok h).1, fun parse hp => ?_,
    by decide, by decide⟩
  unfold NewRequest httpNewRequest
  simp only [Sprintf_two, hp]
  rfl

/-- C9: `NewClient(url, key)` keeps `url` and `key` as they are, sets the
version `v3.0` and the path `ghost`, leaves the user agent empty, so that a
request carries the default user agent, and sets the timeout of the HTTP
client to 10 seconds. -/
theorem NewClient_fields (url key : Bytes) :
    (NewClient url key).URL = url ∧
    (NewClient url key).Key = key ∧
    (NewClient url key).Version = lit "v3.0" ∧
    (NewClient url key).GhostPath = lit "ghost" ∧
    (NewClient url key).UserAgent = [] ∧
    (NewClient url key).client.Timeout = 10 * Second ∧
    (NewClient url key).client.Timeout = 10000000000 ∧
    (∀ (Data E : Type) (L : Lib Data E) (now : Time) (method path : Bytes)
      (data : Option Data) (r : Request),
      NewRequest L (NewClient url key) now method path data = (some r, none) →
      r.Header.Values (lit "User-Agent") = [lit "go-ghost v1"]) := by
  have ht : defaultHTTPTimeout = 10000000000 := by decide
  refine ⟨rfl, rfl, rfl, rfl, rfl, rfl, ht, fun Data E L now method path data r h => ?_⟩
  obtain ⟨_, _, _, hU⟩ := NewRequest_ok_values h
  rw [hU]
  rfl

end

end Ghost
